import Mathlib

/-
Shallow embedding of the term-search core of this repository
(crates/hir/src/term_search/mod.rs): the `LookupTable` memoization store and
the round-based search driver `term_search`.

Modelling conventions:
* `Type` (the analyzed program's type values) is an abstract parameter `Ty`
  with decidable equality; `could_unify_with_deeply` and `Type::reference`
  are function parameters, as the type system is an external collaborator.
* `ScopeDef` is an abstract parameter `SD` with decidable equality.
* `FxHashMap` is modelled as an insertion-ordered association list and
  `FxHashSet` as an insertion-ordered duplicate-free list: `FxHashMap` /
  `FxHashSet` use the deterministic (non-randomized) FxHash, so for a fixed
  sequence of operations their iteration order is a deterministic function of
  that sequence; the association-list model captures exactly that.
* Rust iterators passed to `insert` are modelled as (finite) lists.
* The driver additionally returns a trace of producer-invocation events so
  that round/invocation-count properties can be stated; `term_search` is the
  first projection of the traced driver.
-/

set_option maxRecDepth 4000
set_option linter.unusedSectionVars false
set_option linter.unnecessarySimpa false

namespace TermSearch

/-- Maximum amount of variations to take per type (`const MAX_VARIATIONS: usize = 10`). -/
def MAX_VARIATIONS : Nat := 10

/-- Key for lookup table to query new types reached (`enum NewTypesKey`). -/
inductive NewTypesKey where
  | ImplMethod
  | StructProjection
  deriving DecidableEq

/-- Mutability of a reference (`hir_def::type_ref::Mutability`); only `Shared` is used here. -/
inductive Mutability where
  | Shared
  | Mut
  deriving DecidableEq

/-- Modelled from the spec: the candidate representation `TypeTree`
(`crates/hir/src/term_search/type_tree.rs`, not among the sources). Per the
spec it is an opaque recursive structure with structural equality and a
reference-wrapper variant `Reference`; `atom` stands for every other variant,
with an abstract payload `α`. -/
inductive TypeTree (α : Type) where
  | atom (a : α)
  | Reference (tt : TypeTree α)
  deriving DecidableEq

/-- Insert an element into a list treated as a set (`FxHashSet::insert`):
no-op when already present, otherwise appended. -/
def setInsert {ν : Type} [DecidableEq ν] (s : List ν) (a : ν) : List ν :=
  if a ∈ s then s else s ++ [a]

/-- Extend a set by the elements of a list (`FxHashSet::extend`): duplicates collapse. -/
def setExtend {ν : Type} [DecidableEq ν] (s : List ν) (l : List ν) : List ν :=
  l.foldl setInsert s

/-- Point update of an association list, preserving entry order
(`HashMap::get_mut` followed by a mutation of the value). -/
def updateAssoc {κ ν : Type} [DecidableEq κ] (l : List (κ × ν)) (k : κ) (f : ν → ν) :
    List (κ × ν) :=
  l.map (fun p => if p.1 = k then (p.1, f p.2) else p)

/-- `struct LookupTable`: all the state during term search.
`Ty` models `Type`, `α` the payload of candidate atoms, `SD` models `ScopeDef`. -/
structure LookupTable (Ty : Type) (α : Type) (SD : Type) where
  /-- All the `TypeTree`s in "value" produce the type of "key" (`data`). -/
  data : List (Ty × List (TypeTree α))
  /-- New types reached since last query by the `NewTypesKey` (`new_types`). -/
  new_types : List (NewTypesKey × List Ty)
  /-- ScopeDefs that are not interesting any more (`exhausted_scopedefs`). -/
  exhausted_scopedefs : List SD
  /-- ScopeDefs that were used in current round (`round_scopedef_hits`). -/
  round_scopedef_hits : List SD
  /-- Amount of rounds since scopedef was first used (`rounds_since_sopedef_hit`). -/
  rounds_since_sopedef_hit : List (SD × Nat)

variable {Ty α SD : Type} [DecidableEq Ty] [DecidableEq α] [DecidableEq SD]

/-- `LookupTable::new`: default state, then the two `new_types` channels are registered. -/
def LookupTable.new : LookupTable Ty α SD :=
  { data := []
    new_types := [(NewTypesKey.ImplMethod, []), (NewTypesKey.StructProjection, [])]
    exhausted_scopedefs := []
    round_scopedef_hits := []
    rounds_since_sopedef_hit := [] }

/-- `LookupTable::find`: first stored key that deep-unifies with the query,
returning its candidate set. `could_unify` models `Type::could_unify_with_deeply`
partially applied to the database. -/
def LookupTable.find (could_unify : Ty → Ty → Bool) (self : LookupTable Ty α SD) (ty : Ty) :
    Option (List (TypeTree α)) :=
  (self.data.find? (fun p => could_unify p.1 ty)).map (fun p => p.2)

/-- `LookupTable::find_autoref`: same scan as `find`; on failure a second scan
for a stored key whose shared reference deep-unifies with the query, wrapping
each candidate in `TypeTree::Reference`. -/
def LookupTable.find_autoref (could_unify : Ty → Ty → Bool) (reference : Ty → Mutability → Ty)
    (self : LookupTable Ty α SD) (ty : Ty) : Option (List (TypeTree α)) :=
  ((self.data.find? (fun p => could_unify p.1 ty)).map (fun p => p.2)).orElse
    (fun _ =>
      (self.data.find? (fun p => could_unify (reference p.1 Mutability.Shared) ty)).map
        (fun p => p.2.map (fun tt => TypeTree.Reference tt)))

/-- `LookupTable::insert`: on an existing key (exact equality) extend its set by
the first `MAX_VARIATIONS` new trees; on a new key store the first
`MAX_VARIATIONS` trees and push the type onto every `new_types` channel. -/
def LookupTable.insert (self : LookupTable Ty α SD) (ty : Ty) (trees : List (TypeTree α)) :
    LookupTable Ty α SD :=
  match self.data.find? (fun p => p.1 = ty) with
  | some _ =>
    { self with
      data := updateAssoc self.data ty (fun s => setExtend s (trees.take MAX_VARIATIONS)) }
  | none =>
    { self with
      data := self.data ++ [(ty, setExtend [] (trees.take MAX_VARIATIONS))]
      new_types := self.new_types.map (fun p => (p.1, p.2 ++ [ty])) }

/-- `LookupTable::iter_types`: all currently known keys. -/
def LookupTable.iter_types (self : LookupTable Ty α SD) : List Ty :=
  self.data.map (fun p => p.1)

/-- `LookupTable::new_types` (named `new_types_drain` here because the Lean
field projection already takes the name): atomically returns and empties the
named channel's queue; unknown keys yield the empty list. -/
def LookupTable.new_types_drain (self : LookupTable Ty α SD) (key : NewTypesKey) :
    List Ty × LookupTable Ty α SD :=
  match self.new_types.find? (fun p => p.1 = key) with
  | some p => (p.2, { self with new_types := updateAssoc self.new_types key (fun _ => []) })
  | none => ([], self)

/-- `LookupTable::mark_exhausted`. -/
def LookupTable.mark_exhausted (self : LookupTable Ty α SD) (d : SD) : LookupTable Ty α SD :=
  { self with exhausted_scopedefs := setInsert self.exhausted_scopedefs d }

/-- `LookupTable::mark_fulfilled`. -/
def LookupTable.mark_fulfilled (self : LookupTable Ty α SD) (d : SD) : LookupTable Ty α SD :=
  { self with round_scopedef_hits := setInsert self.round_scopedef_hits d }

/-- `const MAX_ROUNDS_AFTER_HIT: u32 = 2`. -/
def MAX_ROUNDS_AFTER_HIT : Nat := 2

/-- One step of the `new_round` loop body for a single fulfilled ScopeDef:
`entry(def).and_modify(|n| *n += 1).or_insert(0)` — on an existing counter `n`
the entry becomes `n + 1` and `hits` is `n + 1`; on a missing one the entry is
created as `0` and `hits` is `0` (so the `hits > MAX_ROUNDS_AFTER_HIT` test is
vacuously false there). -/
def new_roundStep (acc : LookupTable Ty α SD) (d : SD) : LookupTable Ty α SD :=
  match (acc.rounds_since_sopedef_hit.find? (fun p => p.1 = d)).map (fun p => p.2) with
  | some n =>
    { acc with
      rounds_since_sopedef_hit := updateAssoc acc.rounds_since_sopedef_hit d (fun m => m + 1)
      exhausted_scopedefs :=
        if MAX_ROUNDS_AFTER_HIT < n + 1 then setInsert acc.exhausted_scopedefs d
        else acc.exhausted_scopedefs }
  | none =>
    { acc with rounds_since_sopedef_hit := acc.rounds_since_sopedef_hit ++ [(d, 0)] }

/-- `LookupTable::new_round`: age the counter of every ScopeDef hit in the
round just ended, exhaust the long-fulfilled ones, clear the per-round hits. -/
def LookupTable.new_round (self : LookupTable Ty α SD) : LookupTable Ty α SD :=
  let stepped := self.round_scopedef_hits.foldl new_roundStep self
  { stepped with round_scopedef_hits := [] }

/-- Exact-key lookup into `data` (the map-lookup the source performs with
`self.data.get_mut(&ty)`); used to state properties of `insert`. -/
def lookupExact (self : LookupTable Ty α SD) (ty : Ty) : Option (List (TypeTree α)) :=
  (self.data.find? (fun p => p.1 = ty)).map (fun p => p.2)

/-- Modelled from the spec: the six external producers ("tactics"). Each is
given the active ScopeDef set and the lookup table and returns its yielded
candidates together with the mutated table; the database, enclosing module and
goal type are fixed over one `term_search` call and hence baked into each
function. -/
structure Tactics (Ty : Type) (α : Type) (SD : Type) where
  trivial : List SD → LookupTable Ty α SD → List (TypeTree α) × LookupTable Ty α SD
  famous_types : List SD → LookupTable Ty α SD → List (TypeTree α) × LookupTable Ty α SD
  type_constructor : List SD → LookupTable Ty α SD → List (TypeTree α) × LookupTable Ty α SD
  free_function : List SD → LookupTable Ty α SD → List (TypeTree α) × LookupTable Ty α SD
  impl_method : List SD → LookupTable Ty α SD → List (TypeTree α) × LookupTable Ty α SD
  struct_projection : List SD → LookupTable Ty α SD → List (TypeTree α) × LookupTable Ty α SD

/-- Producer-invocation events recorded by the traced driver. -/
inductive Event where
  | callTrivial
  | callFamousTypes
  | callTypeConstructor
  | callFreeFunction
  | callImplMethod
  | callStructProjection
  | newRoundCall
  deriving DecidableEq

/-- The events of one loop round, in source order. -/
def roundEvents : List Event :=
  [Event.newRoundCall, Event.callTypeConstructor, Event.callFreeFunction,
    Event.callImplMethod, Event.callStructProjection]

/-- The body of one round of the `for _ in 0..5` loop of `term_search`:
`new_round`, then the four producers in source order, collecting their yields. -/
def roundBody (tacs : Tactics Ty α SD) (defs : List SD) (lookup : LookupTable Ty α SD) :
    List (TypeTree α) × LookupTable Ty α SD :=
  let lookup0 := lookup.new_round
  let r1 := tacs.type_constructor defs lookup0
  let r2 := tacs.free_function defs r1.2
  let r3 := tacs.impl_method defs r2.2
  let r4 := tacs.struct_projection defs r3.2
  (r1.1 ++ r2.1 ++ r3.1 ++ r4.1, r4.2)

/-- The `for _ in 0..5` loop of `term_search`, with the remaining fuel
explicit: run a round; if a solution was already found on entry, stop after
this round; otherwise update `solution_found`, prune exhausted ScopeDefs and
continue. Returns the accumulated solutions and the event trace. -/
def searchLoop (tacs : Tactics Ty α SD) :
    Nat → List SD → LookupTable Ty α SD → List (TypeTree α) → Bool →
    List (TypeTree α) × List Event
  | 0, _, _, solutions, _ => (solutions, [])
  | n + 1, defs, lookup, solutions, solution_found =>
    let r := roundBody tacs defs lookup
    let solutions1 := solutions ++ r.1
    if solution_found then (solutions1, roundEvents)
    else
      let defs1 := defs.filter (fun d => !(decide (d ∈ r.2.exhausted_scopedefs)))
      let rest := searchLoop tacs n defs1 r.2 solutions1 (!solutions1.isEmpty)
      (rest.1, roundEvents ++ rest.2)

/-- `Itertools::unique`: keep the first occurrence of each element.
`seen` accumulates the elements already emitted. -/
def uniqueAux {ν : Type} [DecidableEq ν] : List ν → List ν → List ν
  | _, [] => []
  | seen, b :: l => if b ∈ seen then uniqueAux seen l else b :: uniqueAux (b :: seen) l

/-- `solutions.into_iter().unique().collect()`. -/
def uniqueList {ν : Type} [DecidableEq ν] (l : List ν) : List ν :=
  uniqueAux [] l

/-- `term_search`, instrumented with the producer-invocation trace.
`initialDefs` abstracts the ScopeDef set built from the enclosing module and
`process_all_names` (scope enumeration is an external collaborator). -/
def term_searchTrace (tacs : Tactics Ty α SD) (initialDefs : List SD) :
    List (TypeTree α) × List Event :=
  let lookup : LookupTable Ty α SD := LookupTable.new
  let r1 := tacs.trivial initialDefs lookup
  let r2 := tacs.famous_types initialDefs r1.2
  let solutions := r1.1 ++ r2.1
  let solution_found := !solutions.isEmpty
  let rest := searchLoop tacs 5 initialDefs r2.2 solutions solution_found
  (uniqueList rest.1, Event.callTrivial :: Event.callFamousTypes :: rest.2)

/-- `pub fn term_search`: the returned candidate collection. -/
def term_search (tacs : Tactics Ty α SD) (initialDefs : List SD) : List (TypeTree α) :=
  (term_searchTrace tacs initialDefs).1

/-- The counter currently stored for `d` in `rounds_since_sopedef_hit`. -/
def counterOf (lt : LookupTable Ty α SD) (d : SD) : Option Nat :=
  (lt.rounds_since_sopedef_hit.find? (fun p => p.1 = d)).map (fun p => p.2)

/-- Run a sequence of rounds against the table, where entry `b` of the list
says whether `d` is marked fulfilled during that round; `new_round` then begins
the next round, exactly as the driver calls it. -/
def runRounds (d : SD) : List Bool → LookupTable Ty α SD → LookupTable Ty α SD
  | [], lt => lt
  | true :: bs, lt => runRounds d bs (lt.mark_fulfilled d).new_round
  | false :: bs, lt => runRounds d bs lt.new_round

/-- Tables reachable from `LookupTable::new` by the operations the driver and
the tactics may perform. -/
inductive Reach : LookupTable Ty α SD → Prop where
  | new : Reach LookupTable.new
  | insert (lt : LookupTable Ty α SD) (ty : Ty) (trees : List (TypeTree α)) :
      Reach lt → Reach (lt.insert ty trees)
  | drain (lt : LookupTable Ty α SD) (key : NewTypesKey) :
      Reach lt → Reach (lt.new_types_drain key).2
  | mark_exhausted (lt : LookupTable Ty α SD) (d : SD) :
      Reach lt → Reach (lt.mark_exhausted d)
  | mark_fulfilled (lt : LookupTable Ty α SD) (d : SD) :
      Reach lt → Reach (lt.mark_fulfilled d)
  | new_round (lt : LookupTable Ty α SD) : Reach lt → Reach lt.new_round

/-- Every type pending on some `new_types` channel is already a key of `data`. -/
def QueueInv (lt : LookupTable Ty α SD) : Prop :=
  ∀ p ∈ lt.new_types, ∀ t ∈ p.2, t ∈ lt.data.map Prod.fst

/-- Concrete producers that never yield anything and leave the table alone. -/
def emptyTactics : Tactics Nat Nat Nat :=
  { trivial := fun _ lt => ([], lt)
    famous_types := fun _ lt => ([], lt)
    type_constructor := fun _ lt => ([], lt)
    free_function := fun _ lt => ([], lt)
    impl_method := fun _ lt => ([], lt)
    struct_projection := fun _ lt => ([], lt) }

/-- Concrete producers that always yield one candidate and leave the table alone. -/
def constTactics : Tactics Nat Nat Nat :=
  { trivial := fun _ lt => ([TypeTree.atom 0], lt)
    famous_types := fun _ lt => ([TypeTree.atom 0], lt)
    type_constructor := fun _ lt => ([TypeTree.atom 0], lt)
    free_function := fun _ lt => ([TypeTree.atom 0], lt)
    impl_method := fun _ lt => ([TypeTree.atom 0], lt)
    struct_projection := fun _ lt => ([TypeTree.atom 0], lt) }

/-! ### Lemmas about the set and association-list primitives -/

theorem mem_setInsert {ν : Type} [DecidableEq ν] (s : List ν) (a b : ν) :
    b ∈ setInsert s a ↔ b ∈ s ∨ b = a := by
  unfold setInsert
  by_cases h : a ∈ s
  · simp only [if_pos h]
    constructor
    · exact Or.inl
    · rintro (hb | rfl)
      · exact hb
      · exact h
  · simp [if_neg h]

theorem nodup_setInsert {ν : Type} [DecidableEq ν] {s : List ν} (a : ν) (h : s.Nodup) :
    (setInsert s a).Nodup := by
  unfold setInsert
  by_cases ha : a ∈ s
  · simpa [ha] using h
  · simp [ha, List.nodup_append, h]

theorem length_setInsert_le {ν : Type} [DecidableEq ν] (s : List ν) (a : ν) :
    (setInsert s a).length ≤ s.length + 1 := by
  unfold setInsert
  split <;> simp

theorem setExtend_cons {ν : Type} [DecidableEq ν] (s : List ν) (a : ν) (l : List ν) :
    setExtend s (a :: l) = setExtend (setInsert s a) l := rfl

theorem mem_setExtend {ν : Type} [DecidableEq ν] (l : List ν) (s : List ν) (b : ν) :
    b ∈ setExtend s l ↔ b ∈ s ∨ b ∈ l := by
  induction l generalizing s with
  | nil => simp [setExtend]
  | cons a l ih =>
    rw [setExtend_cons, ih, mem_setInsert]
    simp only [List.mem_cons]
    tauto

theorem nodup_setExtend {ν : Type} [DecidableEq ν] (l : List ν) {s : List ν} (h : s.Nodup) :
    (setExtend s l).Nodup := by
  induction l generalizing s with
  | nil => exact h
  | cons a l ih => rw [setExtend_cons]; exact ih (nodup_setInsert a h)

theorem length_setExtend_le {ν : Type} [DecidableEq ν] (l s : List ν) :
    (setExtend s l).length ≤ s.length + l.length := by
  induction l generalizing s with
  | nil => simp [setExtend]
  | cons a l ih =>
    rw [setExtend_cons]
    calc (setExtend (setInsert s a) l).length ≤ (setInsert s a).length + l.length := ih _
      _ ≤ s.length + 1 + l.length := by
          have := length_setInsert_le s a
          omega
      _ = s.length + (a :: l).length := by simp [List.length_cons]; omega

theorem find?_updateAssoc_self {κ ν : Type} [DecidableEq κ] {l : List (κ × ν)} {k : κ}
    {p : κ × ν} (f : ν → ν) (h : l.find? (fun q => q.1 = k) = some p) :
    (updateAssoc l k f).find? (fun q => q.1 = k) = some (k, f p.2) := by
  induction l with
  | nil => simp at h
  | cons a l ih =>
    by_cases ha : a.1 = k
    · rw [List.find?_cons_of_pos _ (by simpa using ha)] at h
      cases h
      simp only [updateAssoc, List.map_cons, if_pos ha]
      rw [List.find?_cons_of_pos _ (by simpa using ha)]
      rw [ha]
    · rw [List.find?_cons_of_neg _ (by simpa using ha)] at h
      simp only [updateAssoc, List.map_cons, if_neg ha]
      rw [List.find?_cons_of_neg _ (by simpa using ha)]
      exact ih h

theorem map_fst_updateAssoc {κ ν : Type} [DecidableEq κ] (l : List (κ × ν)) (k : κ)
    (f : ν → ν) : (updateAssoc l k f).map Prod.fst = l.map Prod.fst := by
  unfold updateAssoc
  rw [List.map_map]
  congr 1
  funext p
  by_cases h : p.1 = k <;> simp [h]

/-! ### Shared lemmas about `insert` -/

theorem find?_eq_none_of_lookupExact {lt : LookupTable Ty α SD} {ty : Ty}
    (h : lookupExact lt ty = none) : lt.data.find? (fun p => p.1 = ty) = none := by
  unfold lookupExact at h
  cases hfind : lt.data.find? (fun p => p.1 = ty) with
  | none => rfl
  | some p => rw [hfind] at h; simp at h

theorem find?_eq_some_of_lookupExact {lt : LookupTable Ty α SD} {ty : Ty} {s₀ : List (TypeTree α)}
    (h : lookupExact lt ty = some s₀) :
    ∃ p, lt.data.find? (fun q => q.1 = ty) = some p ∧ p.2 = s₀ := by
  unfold lookupExact at h
  cases hfind : lt.data.find? (fun q => q.1 = ty) with
  | none => rw [hfind] at h; simp at h
  | some p =>
    rw [hfind] at h
    simp at h
    exact ⟨p, rfl, h⟩

theorem insert_unseen {lt : LookupTable Ty α SD} {ty : Ty} (trees : List (TypeTree α))
    (h : lookupExact lt ty = none) :
    lt.insert ty trees =
      { lt with
        data := lt.data ++ [(ty, setExtend [] (trees.take MAX_VARIATIONS))]
        new_types := lt.new_types.map (fun p => (p.1, p.2 ++ [ty])) } := by
  unfold LookupTable.insert
  rw [find?_eq_none_of_lookupExact h]

theorem lookupExact_insert_unseen {lt : LookupTable Ty α SD} {ty : Ty}
    (trees : List (TypeTree α)) (h : lookupExact lt ty = none) :
    lookupExact (lt.insert ty trees) ty = some (setExtend [] (trees.take MAX_VARIATIONS)) := by
  rw [insert_unseen trees h]
  unfold lookupExact
  simp [List.find?_append, find?_eq_none_of_lookupExact h]

theorem lookupExact_insert_seen {lt : LookupTable Ty α SD} {ty : Ty} {s₀ : List (TypeTree α)}
    (trees : List (TypeTree α)) (h : lookupExact lt ty = some s₀) :
    lookupExact (lt.insert ty trees) ty = some (setExtend s₀ (trees.take MAX_VARIATIONS)) := by
  obtain ⟨p, hp, hp2⟩ := find?_eq_some_of_lookupExact h
  unfold LookupTable.insert
  rw [hp]
  unfold lookupExact
  rw [find?_updateAssoc_self _ hp]
  simp [hp2]

/-! ### C2 -/

/-- C2: `insert` on a previously-unseen type stores at most the first
`MAX_VARIATIONS` (10) items of the candidate sequence as that type's
duplicate-free set; a later, separate `insert` call for the same type (exact
key equality) appends up to 10 more items to the existing set with duplicates
collapsing; and cumulatively a type's candidate count can exceed 10 across
calls (witnessed by two 10-candidate insertions reaching 20). -/
theorem C2_insert_cap (lt : LookupTable Ty α SD) (ty : Ty) (trees : List (TypeTree α)) :
    (lookupExact lt ty = none →
      lookupExact (lt.insert ty trees) ty = some (setExtend [] (trees.take MAX_VARIATIONS)) ∧
      (setExtend [] (trees.take MAX_VARIATIONS)).length ≤ MAX_VARIATIONS ∧
      (setExtend [] (trees.take MAX_VARIATIONS)).Nodup ∧
      (∀ t, t ∈ setExtend [] (trees.take MAX_VARIATIONS) ↔ t ∈ trees.take MAX_VARIATIONS)) ∧
    (∀ s₀, lookupExact lt ty = some s₀ →
      lookupExact (lt.insert ty trees) ty = some (setExtend s₀ (trees.take MAX_VARIATIONS)) ∧
      (∀ t, t ∈ setExtend s₀ (trees.take MAX_VARIATIONS) ↔
        t ∈ s₀ ∨ t ∈ trees.take MAX_VARIATIONS) ∧
      (s₀.Nodup → (setExtend s₀ (trees.take MAX_VARIATIONS)).Nodup)) ∧
    MAX_VARIATIONS <
      ((lookupExact
          (((LookupTable.new : LookupTable Nat Nat Nat).insert 0
              ((List.range 10).map TypeTree.atom)).insert 0
            ((List.range' 10 10).map TypeTree.atom)) 0).getD []).length := by
  refine ⟨?_, ?_, ?_⟩
  · intro h
    refine ⟨lookupExact_insert_unseen trees h, ?_, nodup_setExtend _ List.nodup_nil,
      fun t => by simpa using mem_setExtend (trees.take MAX_VARIATIONS) [] t⟩
    have h1 := length_setExtend_le (trees.take MAX_VARIATIONS) []
    have h2 : (trees.take MAX_VARIATIONS).length ≤ MAX_VARIATIONS := by
      rw [List.length_take]
      exact min_le_left _ _
    simpa using le_trans h1 (by simpa using h2)
  · intro s₀ hs
    exact ⟨lookupExact_insert_seen trees hs, fun t => mem_setExtend _ _ t,
      fun hn => nodup_setExtend _ hn⟩
  · decide

/-- Witness for C2: inserting one candidate for the fresh key `0` into a new
table stores it as a singleton duplicate-free set. -/
theorem C2_insert_cap_witness :
    lookupExact ((LookupTable.new : LookupTable Nat Nat Nat).insert 0 [TypeTree.atom 1]) 0 =
      some (setExtend [] ([TypeTree.atom 1].take MAX_VARIATIONS)) ∧
    (setExtend [] (([TypeTree.atom 1] : List (TypeTree Nat)).take MAX_VARIATIONS)).length ≤
      MAX_VARIATIONS ∧
    (setExtend [] (([TypeTree.atom 1] : List (TypeTree Nat)).take MAX_VARIATIONS)).Nodup ∧
    (∀ t, t ∈ setExtend [] (([TypeTree.atom 1] : List (TypeTree Nat)).take MAX_VARIATIONS) ↔
      t ∈ ([TypeTree.atom 1] : List (TypeTree Nat)).take MAX_VARIATIONS) :=
  (C2_insert_cap (LookupTable.new : LookupTable Nat Nat Nat) 0 [TypeTree.atom 1]).1 rfl

/-! ### C5 -/

/-- C5: `find_autoref` first behaves exactly as `find` (candidates of the
first stored key that deep-unifies with the query); only if that scan fails
does it run the second scan for a stored key whose shared reference unifies
with the query, wrapping each candidate in `TypeTree.Reference`; it returns
`none` exactly when both scans fail. -/
theorem C5_find_autoref (could_unify : Ty → Ty → Bool) (reference : Ty → Mutability → Ty)
    (lt : LookupTable Ty α SD) (ty : Ty) :
    (∀ r, lt.find could_unify ty = some r →
      lt.find_autoref could_unify reference ty = some r) ∧
    (lt.find could_unify ty = none →
      lt.find_autoref could_unify reference ty =
        (lt.data.find? (fun p => could_unify (reference p.1 Mutability.Shared) ty)).map
          (fun p => p.2.map (fun tt => TypeTree.Reference tt))) ∧
    (lt.find_autoref could_unify reference ty = none ↔
      lt.find could_unify ty = none ∧
      lt.data.find? (fun p => could_unify (reference p.1 Mutability.Shared) ty) = none) := by
  unfold LookupTable.find LookupTable.find_autoref
  cases h1 : lt.data.find? (fun p => could_unify p.1 ty) with
  | some p =>
    refine ⟨fun r hr => hr, fun hn => by simp at hn, ?_⟩
    simp [Option.orElse]
  | none =>
    refine ⟨fun r hr => by simp at hr, fun _ => rfl, ?_⟩
    cases h2 : lt.data.find? (fun p => could_unify (reference p.1 Mutability.Shared) ty) <;>
      simp [Option.orElse, h2]

/-- Witness for C5: on a table holding one candidate for the key `0`, the
exact scan answers the query `0` directly, and for the query `100` (which only
the shared reference `0 + 100` matches) the fallback answers with the
reference-wrapped candidate. -/
theorem C5_find_autoref_witness :
    (((LookupTable.new : LookupTable Nat Nat Nat).insert 0 [TypeTree.atom 5]).find_autoref
        (fun a b => decide (a = b)) (fun t _ => t + 100) 0 = some [TypeTree.atom 5]) ∧
    (((LookupTable.new : LookupTable Nat Nat Nat).insert 0 [TypeTree.atom 5]).find_autoref
        (fun a b => decide (a = b)) (fun t _ => t + 100) 100 =
      some [TypeTree.Reference (TypeTree.atom 5)]) := by
  constructor
  · exact (C5_find_autoref (fun a b => decide (a = b)) (fun t _ => t + 100)
      ((LookupTable.new : LookupTable Nat Nat Nat).insert 0 [TypeTree.atom 5]) 0).1
      [TypeTree.atom 5] (by decide)
  · have h := (C5_find_autoref (fun a b => decide (a = b)) (fun t _ => t + 100)
      ((LookupTable.new : LookupTable Nat Nat Nat).insert 0 [TypeTree.atom 5]) 100).2.1
      (by decide)
    rw [h]
    decide

/-! ### C7 -/

theorem exhausted_foldl_mono (l : List SD) (acc : LookupTable Ty α SD) (d : SD)
    (h : d ∈ acc.exhausted_scopedefs) :
    d ∈ (l.foldl new_roundStep acc).exhausted_scopedefs := by
  induction l generalizing acc with
  | nil => exact h
  | cons a l ih =>
    simp only [List.foldl_cons]
    apply ih
    unfold new_roundStep
    cases hp : (acc.rounds_since_sopedef_hit.find? (fun p => p.1 = a)).map (fun p => p.2) with
    | none => exact h
    | some n =>
      dsimp only
      split
      · exact (mem_setInsert _ _ _).2 (Or.inl h)
      · exact h

/-- C7: once a ScopeDef is in `exhausted_scopedefs` it stays there across
every mutating LookupTable operation (`insert`, `new_types` drain,
`mark_exhausted`, `mark_fulfilled`, `new_round`; `find`/`find_autoref` do not
mutate the table at all). -/
theorem C7_exhausted_monotonic (lt : LookupTable Ty α SD) (d : SD)
    (h : d ∈ lt.exhausted_scopedefs) :
    (∀ (ty : Ty) (trees : List (TypeTree α)), d ∈ (lt.insert ty trees).exhausted_scopedefs) ∧
    (∀ key, d ∈ (lt.new_types_drain key).2.exhausted_scopedefs) ∧
    (∀ e : SD, d ∈ (lt.mark_exhausted e).exhausted_scopedefs) ∧
    (∀ e : SD, d ∈ (lt.mark_fulfilled e).exhausted_scopedefs) ∧
    d ∈ lt.new_round.exhausted_scopedefs := by
  refine ⟨?_, ?_, ?_, ?_, ?_⟩
  · intro ty trees
    unfold LookupTable.insert
    cases hf : lt.data.find? (fun p => p.1 = ty) <;> exact h
  · intro key
    unfold LookupTable.new_types_drain
    cases hf : lt.new_types.find? (fun p => p.1 = key) <;> exact h
  · intro e
    exact (mem_setInsert _ _ _).2 (Or.inl h)
  · intro e
    exact h
  · exact exhausted_foldl_mono _ _ _ h

/-- Witness for C7: the def `0`, exhausted on a fresh table, survives an
`insert` and a `new_round`. -/
theorem C7_exhausted_monotonic_witness :
    0 ∈ (((LookupTable.new : LookupTable Nat Nat Nat).mark_exhausted 0).insert 1
        []).exhausted_scopedefs ∧
    0 ∈ ((LookupTable.new : LookupTable Nat Nat Nat).mark_exhausted
        0).new_round.exhausted_scopedefs :=
  ⟨(C7_exhausted_monotonic ((LookupTable.new : LookupTable Nat Nat Nat).mark_exhausted 0) 0
      (by decide)).1 1 [],
   (C7_exhausted_monotonic ((LookupTable.new : LookupTable Nat Nat Nat).mark_exhausted 0) 0
      (by decide)).2.2.2.2⟩

/-! ### C10 -/

/-- C10: `insert` of a previously-unseen type with an empty candidate sequence
still creates an entry (with the empty set) for that type and appends the type
to every existing `new_types` queue; a subsequent `find` whose query
deep-unifies with that key can thus return `some []` rather than `none`. -/
theorem C10_insert_empty (lt : LookupTable Ty α SD) (ty : Ty)
    (h : lookupExact lt ty = none) :
    lookupExact (lt.insert ty []) ty = some [] ∧
    (∀ k q, (lt.new_types.find? (fun p => p.1 = k)).map (fun p => p.2) = some q →
      ((lt.insert ty []).new_types.find? (fun p => p.1 = k)).map (fun p => p.2) =
        some (q ++ [ty])) ∧
    (∀ could_unify : Ty → Ty → Bool, ∀ q : Ty, lt.data = [] → could_unify ty q = true →
      (lt.insert ty []).find could_unify q = some []) := by
  refine ⟨?_, ?_, ?_⟩
  · exact lookupExact_insert_unseen [] h
  · intro k q hq
    rw [insert_unseen [] h]
    cases hfind : lt.new_types.find? (fun p => p.1 = k) with
    | none => rw [hfind] at hq; simp at hq
    | some p =>
      rw [hfind] at hq
      simp at hq
      have : (lt.new_types.map (fun p => (p.1, p.2 ++ [ty]))).find? (fun p => p.1 = k) =
          some (p.1, p.2 ++ [ty]) := by
        rw [List.find?_map]
        have : ((fun (p : NewTypesKey × List Ty) => decide (p.1 = k)) ∘
            fun (p : NewTypesKey × List Ty) => (p.1, p.2 ++ [ty])) =
            fun (p : NewTypesKey × List Ty) => decide (p.1 = k) := by
          funext r
          rfl
        rw [this, hfind]
        rfl
      rw [this]
      simp [hq]
  · intro cu q hdata hcu
    unfold LookupTable.find
    rw [insert_unseen [] h, hdata]
    simp [List.find?_cons_of_pos, hcu]
    rfl

/-- Witness for C10: inserting the fresh key `0` with no candidates into a new
table yields the entry `some []`, broadcasts `0` to the `ImplMethod` channel,
and a unifying `find` then answers `some []`. -/
theorem C10_insert_empty_witness :
    lookupExact ((LookupTable.new : LookupTable Nat Nat Nat).insert 0 []) 0 = some [] ∧
    ((((LookupTable.new : LookupTable Nat Nat Nat).insert 0 []).new_types.find?
        (fun p => p.1 = NewTypesKey.ImplMethod)).map (fun p => p.2)) = some ([] ++ [0]) ∧
    ((LookupTable.new : LookupTable Nat Nat Nat).insert 0 []).find
      (fun a b => decide (a = b)) 0 = some [] :=
  ⟨(C10_insert_empty (LookupTable.new : LookupTable Nat Nat Nat) 0 rfl).1,
   (C10_insert_empty (LookupTable.new : LookupTable Nat Nat Nat) 0 rfl).2.1
     NewTypesKey.ImplMethod [] (by decide),
   (C10_insert_empty (LookupTable.new : LookupTable Nat Nat Nat) 0 rfl).2.2
     (fun a b => decide (a = b)) 0 rfl (by decide)⟩

/-! ### C3 -/

theorem new_round_nohits (lt : LookupTable Ty α SD) (hhits : lt.round_scopedef_hits = []) :
    lt.new_round = { lt with round_scopedef_hits := [] } := by
  unfold LookupTable.new_round
  rw [hhits]
  rfl

theorem new_roundStep_none (acc : LookupTable Ty α SD) (d : SD)
    (h : acc.rounds_since_sopedef_hit.find? (fun p => p.1 = d) = none) :
    new_roundStep acc d =
      { acc with rounds_since_sopedef_hit := acc.rounds_since_sopedef_hit ++ [(d, 0)] } := by
  unfold new_roundStep
  rw [h]
  rfl

theorem new_roundStep_some (acc : LookupTable Ty α SD) (d : SD) (p : SD × Nat)
    (h : acc.rounds_since_sopedef_hit.find? (fun q => q.1 = d) = some p) :
    new_roundStep acc d =
      { acc with
        rounds_since_sopedef_hit := updateAssoc acc.rounds_since_sopedef_hit d (fun m => m + 1)
        exhausted_scopedefs :=
          if MAX_ROUNDS_AFTER_HIT < p.2 + 1 then setInsert acc.exhausted_scopedefs d
          else acc.exhausted_scopedefs } := by
  unfold new_roundStep
  rw [h]
  rfl

theorem marked_round_state (lt : LookupTable Ty α SD) (d : SD)
    (hhits : lt.round_scopedef_hits = []) (c : Nat)
    (hctr : counterOf lt d = if c = 0 then none else some (c - 1))
    (hexh : d ∈ lt.exhausted_scopedefs ↔ 4 ≤ c) :
    (lt.mark_fulfilled d).new_round.round_scopedef_hits = [] ∧
    counterOf (lt.mark_fulfilled d).new_round d = some c ∧
    (d ∈ (lt.mark_fulfilled d).new_round.exhausted_scopedefs ↔ 4 ≤ c + 1) := by
  have hmark : (lt.mark_fulfilled d).round_scopedef_hits = [d] := by
    unfold LookupTable.mark_fulfilled
    simp [hhits, setInsert]
  unfold LookupTable.new_round
  rw [hmark]
  simp only [List.foldl_cons, List.foldl_nil]
  rcases c with _ | c'
  · have h0 : counterOf lt d = none := by simpa using hctr
    have hfnone : (lt.mark_fulfilled d).rounds_since_sopedef_hit.find?
        (fun p => p.1 = d) = none := by
      unfold counterOf at h0
      cases hf : lt.rounds_since_sopedef_hit.find? (fun p => p.1 = d) with
      | none => exact hf
      | some p => rw [hf] at h0; simp at h0
    rw [new_roundStep_none (lt.mark_fulfilled d) d hfnone]
    refine ⟨trivial, ?_, ?_⟩
    · show Option.map (fun p : SD × Nat => p.2)
        (List.find? (fun p : SD × Nat => decide (p.1 = d))
          ((lt.mark_fulfilled d).rounds_since_sopedef_hit ++ [(d, 0)])) = some 0
      rw [List.find?_append, hfnone]
      simp
    · show d ∈ (lt.mark_fulfilled d).exhausted_scopedefs ↔ 4 ≤ 0 + 1
      constructor
      · intro hmem
        exact absurd (hexh.mp hmem) (by omega)
      · intro h4
        exact absurd h4 (by omega)
  · have h0 : counterOf lt d = some c' := by simpa using hctr
    obtain ⟨p, hp, hp2⟩ : ∃ p, (lt.mark_fulfilled d).rounds_since_sopedef_hit.find?
        (fun q => q.1 = d) = some p ∧ p.2 = c' := by
      unfold counterOf at h0
      cases hf : lt.rounds_since_sopedef_hit.find? (fun q => q.1 = d) with
      | none => rw [hf] at h0; simp at h0
      | some p =>
        rw [hf] at h0
        simp at h0
        exact ⟨p, hf, h0⟩
    rw [new_roundStep_some (lt.mark_fulfilled d) d p hp]
    refine ⟨trivial, ?_, ?_⟩
    · show Option.map (fun p : SD × Nat => p.2)
        (List.find? (fun p : SD × Nat => decide (p.1 = d))
          (updateAssoc (lt.mark_fulfilled d).rounds_since_sopedef_hit d (fun m => m + 1))) =
        some (c' + 1)
      rw [find?_updateAssoc_self _ hp]
      simp [hp2]
    · show d ∈ (if MAX_ROUNDS_AFTER_HIT < p.2 + 1 then
            setInsert (lt.mark_fulfilled d).exhausted_scopedefs d
          else (lt.mark_fulfilled d).exhausted_scopedefs) ↔ 4 ≤ (c' + 1) + 1
      rw [hp2]
      by_cases h2 : MAX_ROUNDS_AFTER_HIT < c' + 1
      · rw [if_pos h2]
        unfold MAX_ROUNDS_AFTER_HIT at h2
        constructor
        · intro _
          omega
        · intro _
          exact (mem_setInsert _ _ _).2 (Or.inr rfl)
      · rw [if_neg h2]
        unfold MAX_ROUNDS_AFTER_HIT at h2
        constructor
        · intro hmem
          have := hexh.mp hmem
          omega
        · intro h4
          exact absurd h4 (by omega)

theorem runRounds_inv (d : SD) (bs : List Bool) :
    ∀ (c : Nat) (lt : LookupTable Ty α SD),
      lt.round_scopedef_hits = [] →
      counterOf lt d = (if c = 0 then none else some (c - 1)) →
      (d ∈ lt.exhausted_scopedefs ↔ 4 ≤ c) →
      (runRounds d bs lt).round_scopedef_hits = [] ∧
      counterOf (runRounds d bs lt) d =
        (if c + bs.count true = 0 then none else some (c + bs.count true - 1)) ∧
      (d ∈ (runRounds d bs lt).exhausted_scopedefs ↔ 4 ≤ c + bs.count true) := by
  induction bs with
  | nil =>
    intro c lt h1 h2 h3
    simp only [runRounds, List.count_nil, Nat.add_zero]
    exact ⟨h1, h2, h3⟩
  | cons b bs ih =>
    intro c lt h1 h2 h3
    cases b with
    | true =>
      have hstep := marked_round_state lt d h1 c h2 h3
      have hnext := ih (c + 1) ((lt.mark_fulfilled d).new_round) hstep.1
        (by simpa using hstep.2.1) hstep.2.2
      have hcount : c + (true :: bs).count true = (c + 1) + bs.count true := by
        simp [List.count_cons]
        omega
      simp only [runRounds]
      rw [hcount]
      exact hnext
    | false =>
      have hrw := new_round_nohits lt h1
      have hnext := ih c ({ lt with round_scopedef_hits := [] }) rfl h2 h3
      have hcount : c + (false :: bs).count true = c + bs.count true := by
        simp [List.count_cons]
      simp only [runRounds]
      rw [hrw, hcount]
      exact hnext

/-- C3: starting from a fresh table, if `d` is marked fulfilled in exactly the
rounds flagged `true` in `bs` (with `new_round` beginning the next round after
each), its counter in `rounds_since_sopedef_hit` is absent until its first
fulfilled round and thereafter one less than its number of fulfilled rounds
(the first records 0, each later fulfilled round increments), and `d` belongs
to `exhausted_scopedefs` exactly when it has been fulfilled in at least 4
rounds — i.e. it is added at the `new_round` call following its fourth
fulfilled round and never earlier. -/
theorem C3_round_bounded_fulfillment (d : SD) (bs : List Bool) :
    counterOf (runRounds d bs (LookupTable.new : LookupTable Ty α SD)) d =
      (if bs.count true = 0 then none else some (bs.count true - 1)) ∧
    (d ∈ (runRounds d bs (LookupTable.new : LookupTable Ty α SD)).exhausted_scopedefs ↔
      4 ≤ bs.count true) := by
  have h := runRounds_inv d bs 0 (LookupTable.new : LookupTable Ty α SD) rfl
    (by simp [counterOf, LookupTable.new]) (by simp [LookupTable.new])
  rcases h with ⟨-, h2, h3⟩
  constructor
  · simpa using h2
  · simpa using h3

/-! ### C4 -/

theorem insert_seen_eq {lt : LookupTable Ty α SD} {ty : Ty} {q : Ty × List (TypeTree α)}
    (trees : List (TypeTree α)) (hf : lt.data.find? (fun r => r.1 = ty) = some q) :
    lt.insert ty trees =
      { lt with
        data := updateAssoc lt.data ty (fun s => setExtend s (trees.take MAX_VARIATIONS)) } := by
  unfold LookupTable.insert
  rw [hf]

theorem insert_unseen_eq {lt : LookupTable Ty α SD} {ty : Ty} (trees : List (TypeTree α))
    (hf : lt.data.find? (fun r => r.1 = ty) = none) :
    lt.insert ty trees =
      { lt with
        data := lt.data ++ [(ty, setExtend [] (trees.take MAX_VARIATIONS))]
        new_types := lt.new_types.map (fun p => (p.1, p.2 ++ [ty])) } := by
  unfold LookupTable.insert
  rw [hf]

theorem foldl_new_roundStep_fields (l : List SD) (acc : LookupTable Ty α SD) :
    (l.foldl new_roundStep acc).data = acc.data ∧
    (l.foldl new_roundStep acc).new_types = acc.new_types := by
  induction l generalizing acc with
  | nil => exact ⟨rfl, rfl⟩
  | cons a l ih =>
    simp only [List.foldl_cons]
    have hstep : (new_roundStep acc a).data = acc.data ∧
        (new_roundStep acc a).new_types = acc.new_types := by
      unfold new_roundStep
      cases hp : (acc.rounds_since_sopedef_hit.find? (fun p => p.1 = a)).map (fun p => p.2) with
      | none => exact ⟨rfl, rfl⟩
      | some n => exact ⟨rfl, rfl⟩
    obtain ⟨h1, h2⟩ := ih (new_roundStep acc a)
    exact ⟨h1.trans hstep.1, h2.trans hstep.2⟩

theorem new_round_fields (lt : LookupTable Ty α SD) :
    lt.new_round.data = lt.data ∧ lt.new_round.new_types = lt.new_types := by
  unfold LookupTable.new_round
  exact foldl_new_roundStep_fields lt.round_scopedef_hits lt

theorem queueInv_reach (lt : LookupTable Ty α SD) (h : Reach lt) : QueueInv lt := by
  induction h with
  | new =>
    intro p hp t ht
    unfold LookupTable.new at hp
    simp at hp
    rcases hp with rfl | rfl <;> simp at ht
  | insert lt ty trees hR ih =>
    intro p hp t ht
    cases hf : lt.data.find? (fun r => r.1 = ty) with
    | some q =>
      simp only [insert_seen_eq trees hf] at hp ⊢
      rw [map_fst_updateAssoc]
      exact ih p hp t ht
    | none =>
      simp only [insert_unseen_eq trees hf] at hp ⊢
      rw [List.mem_map] at hp
      obtain ⟨r, hr, hpr⟩ := hp
      subst hpr
      simp only [List.mem_append] at ht
      simp only [List.map_append]
      rw [List.mem_append]
      rcases ht with ht | ht
      · exact Or.inl (ih r hr t ht)
      · right
        simpa using ht
  | drain lt key hR ih =>
    intro p hp t ht
    cases hf : lt.new_types.find? (fun r => r.1 = key) with
    | none =>
      have hst : (lt.new_types_drain key).2 = lt := by
        unfold LookupTable.new_types_drain
        rw [hf]
      rw [hst] at hp ⊢
      exact ih p hp t ht
    | some q =>
      have hst : (lt.new_types_drain key).2 =
          { lt with new_types := updateAssoc lt.new_types key (fun _ => []) } := by
        unfold LookupTable.new_types_drain
        rw [hf]
      simp only [hst] at hp ⊢
      unfold updateAssoc at hp
      rw [List.mem_map] at hp
      obtain ⟨r, hr, hpr⟩ := hp
      by_cases hk : r.1 = key
      · rw [if_pos hk] at hpr
        subst hpr
        simp at ht
      · rw [if_neg hk] at hpr
        subst hpr
        exact ih r hr t ht
  | mark_exhausted lt d hR ih =>
    intro p hp t ht
    exact ih p hp t ht
  | mark_fulfilled lt d hR ih =>
    intro p hp t ht
    exact ih p hp t ht
  | new_round lt hR ih =>
    intro p hp t ht
    obtain ⟨h1, h2⟩ := new_round_fields lt
    rw [h2] at hp
    rw [h1]
    exact ih p hp t ht

theorem find?_new_types_insert_unseen {lt : LookupTable Ty α SD} {ty : Ty} {k : NewTypesKey}
    {p : NewTypesKey × List Ty} (trees : List (TypeTree α))
    (hf : lt.data.find? (fun r => r.1 = ty) = none)
    (hp : lt.new_types.find? (fun r => r.1 = k) = some p) :
    (lt.insert ty trees).new_types.find? (fun r => r.1 = k) = some (p.1, p.2 ++ [ty]) := by
  rw [insert_unseen_eq trees hf]
  show (lt.new_types.map (fun r => (r.1, r.2 ++ [ty]))).find? (fun r => r.1 = k) =
    some (p.1, p.2 ++ [ty])
  rw [List.find?_map]
  have hcomp : ((fun (r : NewTypesKey × List Ty) => decide (r.1 = k)) ∘
      fun (r : NewTypesKey × List Ty) => (r.1, r.2 ++ [ty])) =
      fun (r : NewTypesKey × List Ty) => decide (r.1 = k) := by
    funext r
    rfl
  rw [hcomp, hp]
  rfl

/-- C4: after `insert` of a previously-unseen type (on any reachable table),
every existing `new_types` channel's next drain returns its pending queue with
the new type appended, containing it exactly once; draining the same channel
twice in a row without an intervening `insert` yields the pending types then
the empty sequence; and draining an absent key yields the empty sequence with
the table unchanged, never an error. -/
theorem C4_new_type_broadcast (lt : LookupTable Ty α SD) (ty : Ty)
    (trees : List (TypeTree α)) (hR : Reach lt) (hnew : lookupExact lt ty = none) :
    (∀ k q, (lt.new_types.find? (fun p => p.1 = k)).map (fun p => p.2) = some q →
      ((lt.insert ty trees).new_types_drain k).1 = q ++ [ty] ∧
      ((lt.insert ty trees).new_types_drain k).1.count ty = 1) ∧
    (∀ k, ((lt.new_types_drain k).2.new_types_drain k).1 = []) ∧
    (∀ k, lt.new_types.find? (fun p => p.1 = k) = none → lt.new_types_drain k = ([], lt)) := by
  have hf := find?_eq_none_of_lookupExact hnew
  refine ⟨?_, ?_, ?_⟩
  · intro k q hq
    obtain ⟨p, hp, hp2⟩ : ∃ p, lt.new_types.find? (fun r => r.1 = k) = some p ∧ p.2 = q := by
      cases hfk : lt.new_types.find? (fun r => r.1 = k) with
      | none => rw [hfk] at hq; simp at hq
      | some p =>
        rw [hfk] at hq
        simp at hq
        exact ⟨p, rfl, hq⟩
    have hfind2 := find?_new_types_insert_unseen trees hf hp
    have hdrain : ((lt.insert ty trees).new_types_drain k).1 = p.2 ++ [ty] := by
      unfold LookupTable.new_types_drain
      rw [hfind2]
    have hnotin : ty ∉ q := by
      intro hty
      have hmem : p ∈ lt.new_types := List.mem_of_find?_eq_some hp
      have hkey := queueInv_reach lt hR p hmem ty (by rw [hp2]; exact hty)
      rw [List.mem_map] at hkey
      obtain ⟨r, hr, hr2⟩ := hkey
      have hne := List.find?_eq_none.mp hf r hr
      simp at hne
      exact hne hr2
    constructor
    · rw [hdrain, hp2]
    · rw [hdrain, hp2, List.count_append]
      have h0 : q.count ty = 0 := List.count_eq_zero.2 hnotin
      rw [h0]
      simp
  · intro k
    cases hfk : lt.new_types.find? (fun r => r.1 = k) with
    | none =>
      have h1 : lt.new_types_drain k = ([], lt) := by
        unfold LookupTable.new_types_drain
        rw [hfk]
      rw [h1]
      show (lt.new_types_drain k).1 = []
      rw [h1]
    | some p =>
      have hst : (lt.new_types_drain k).2 =
          { lt with new_types := updateAssoc lt.new_types k (fun _ => []) } := by
        unfold LookupTable.new_types_drain
        rw [hfk]
      rw [hst]
      have h2 := find?_updateAssoc_self (fun _ => ([] : List Ty)) hfk
      unfold LookupTable.new_types_drain
      rw [show ({ lt with new_types := updateAssoc lt.new_types k (fun _ => []) } :
          LookupTable Ty α SD).new_types = updateAssoc lt.new_types k (fun _ => []) from rfl,
        h2]
  · intro k hk
    unfold LookupTable.new_types_drain
    rw [hk]

/-- Witness for C4: inserting the unseen type `0` into a fresh table makes the
next `ImplMethod` drain return exactly `[0]`. -/
theorem C4_new_type_broadcast_witness :
    (((LookupTable.new : LookupTable Nat Nat Nat).insert 0 []).new_types_drain
        NewTypesKey.ImplMethod).1 = [] ++ [0] ∧
    (((LookupTable.new : LookupTable Nat Nat Nat).insert 0 []).new_types_drain
        NewTypesKey.ImplMethod).1.count 0 = 1 :=
  (C4_new_type_broadcast (LookupTable.new : LookupTable Nat Nat Nat) 0 [] Reach.new rfl).1
    NewTypesKey.ImplMethod [] (by decide)

/-! ### C6 -/

theorem uniqueAux_nodup {ν : Type} [DecidableEq ν] (l : List ν) :
    ∀ seen, (uniqueAux seen l).Nodup ∧ ∀ b ∈ uniqueAux seen l, b ∉ seen := by
  induction l with
  | nil => intro seen; simp [uniqueAux]
  | cons a l ih =>
    intro seen
    by_cases ha : a ∈ seen
    · simpa [uniqueAux, ha] using ih seen
    · simp only [uniqueAux, if_neg ha]
      obtain ⟨h1, h2⟩ := ih (a :: seen)
      refine ⟨List.nodup_cons.2 ⟨fun hmem => h2 a hmem (List.mem_cons_self a seen), h1⟩, ?_⟩
      intro b hb
      rcases List.mem_cons.1 hb with rfl | hb'
      · exact ha
      · intro hbseen
        exact h2 b hb' (List.mem_cons_of_mem a hbseen)

/-- C6: the collection returned by `term_search` never contains two
structurally equal candidates — the accumulated solutions are deduplicated
before being returned. -/
theorem C6_dedup (tacs : Tactics Ty α SD) (initialDefs : List SD) :
    (term_search tacs initialDefs).Nodup := by
  unfold term_search term_searchTrace
  exact (uniqueAux_nodup _ _).1

/-! ### C8 -/

/-- C8: `term_search` is deterministic — two runs on equal inputs (same scope
enumeration and the same producer functions, which encapsulate the type-system
answers and tactic yields) return the same candidate collection. The embedding
makes this precise: with `FxHashMap`/`FxHashSet` modelled as the
insertion-ordered structures their deterministic FxHash iteration realizes,
the whole driver is a pure function of its inputs. -/
theorem C8_deterministic (tacs₁ tacs₂ : Tactics Ty α SD) (defs₁ defs₂ : List SD)
    (ht : tacs₁ = tacs₂) (hd : defs₁ = defs₂) :
    term_search tacs₁ defs₁ = term_search tacs₂ defs₂ := by
  rw [ht, hd]

/-- Witness for C8 at concrete inputs. -/
theorem C8_deterministic_witness :
    term_search emptyTactics ([] : List Nat) = term_search emptyTactics ([] : List Nat) :=
  C8_deterministic emptyTactics emptyTactics [] [] rfl rfl

/-! ### C9 -/

theorem searchLoop_succ_true (tacs : Tactics Ty α SD) (n : Nat) (ds : List SD)
    (lt : LookupTable Ty α SD) (sols : List (TypeTree α)) :
    searchLoop tacs (n + 1) ds lt sols true =
      (sols ++ (roundBody tacs ds lt).1, roundEvents) := rfl

theorem searchLoop_succ_false (tacs : Tactics Ty α SD) (n : Nat) (ds : List SD)
    (lt : LookupTable Ty α SD) (sols : List (TypeTree α)) :
    searchLoop tacs (n + 1) ds lt sols false =
      ((searchLoop tacs n
          (ds.filter (fun d => !(decide (d ∈ (roundBody tacs ds lt).2.exhausted_scopedefs))))
          (roundBody tacs ds lt).2 (sols ++ (roundBody tacs ds lt).1)
          (!(sols ++ (roundBody tacs ds lt).1).isEmpty)).1,
        roundEvents ++
          (searchLoop tacs n
            (ds.filter (fun d => !(decide (d ∈ (roundBody tacs ds lt).2.exhausted_scopedefs))))
            (roundBody tacs ds lt).2 (sols ++ (roundBody tacs ds lt).1)
            (!(sols ++ (roundBody tacs ds lt).1).isEmpty)).2) := rfl

theorem searchLoop_all_empty (tacs : Tactics Ty α SD)
    (h3 : ∀ ds lt, (tacs.type_constructor ds lt).1 = [])
    (h4 : ∀ ds lt, (tacs.free_function ds lt).1 = [])
    (h5 : ∀ ds lt, (tacs.impl_method ds lt).1 = [])
    (h6 : ∀ ds lt, (tacs.struct_projection ds lt).1 = []) :
    ∀ (n : Nat) (ds : List SD) (lt : LookupTable Ty α SD),
      (searchLoop tacs n ds lt [] false).1 = [] := by
  intro n
  induction n with
  | zero => intro ds lt; rfl
  | succ n ih =>
    intro ds lt
    have hr : (roundBody tacs ds lt).1 = [] := by
      unfold roundBody
      simp [h3, h4, h5, h6]
    rw [searchLoop_succ_false]
    simp only [hr, List.append_nil, List.isEmpty_nil, Bool.not_true]
    exact ih _ _

/-- C9: `term_search` never signals failure — it always returns a (possibly
empty) list, and when no producer yields anything the result is the empty
collection, not an error value. -/
theorem C9_empty_result (tacs : Tactics Ty α SD) (defs : List SD)
    (h1 : ∀ ds lt, (tacs.trivial ds lt).1 = [])
    (h2 : ∀ ds lt, (tacs.famous_types ds lt).1 = [])
    (h3 : ∀ ds lt, (tacs.type_constructor ds lt).1 = [])
    (h4 : ∀ ds lt, (tacs.free_function ds lt).1 = [])
    (h5 : ∀ ds lt, (tacs.impl_method ds lt).1 = [])
    (h6 : ∀ ds lt, (tacs.struct_projection ds lt).1 = []) :
    term_search tacs defs = [] := by
  unfold term_search term_searchTrace
  simp only [h1, h2, List.nil_append, List.isEmpty_nil, Bool.not_true]
  rw [searchLoop_all_empty tacs h3 h4 h5 h6 5 defs _]
  rfl

/-- Witness for C9: with producers that never yield, `term_search` returns
the empty list. -/
theorem C9_empty_result_witness : term_search emptyTactics ([] : List Nat) = [] :=
  C9_empty_result emptyTactics [] (fun _ _ => rfl) (fun _ _ => rfl) (fun _ _ => rfl)
    (fun _ _ => rfl) (fun _ _ => rfl) (fun _ _ => rfl)

/-! ### C1 -/

theorem searchLoop_trace_counts (tacs : Tactics Ty α SD) :
    ∀ (n : Nat) (ds : List SD) (lt : LookupTable Ty α SD) (sols : List (TypeTree α))
      (found : Bool),
      (searchLoop tacs n ds lt sols found).2.count Event.newRoundCall ≤ n ∧
      (searchLoop tacs n ds lt sols found).2.count Event.callTrivial = 0 ∧
      (searchLoop tacs n ds lt sols found).2.count Event.callFamousTypes = 0 ∧
      (searchLoop tacs n ds lt sols found).2.count Event.callTypeConstructor =
        (searchLoop tacs n ds lt sols found).2.count Event.newRoundCall ∧
      (searchLoop tacs n ds lt sols found).2.count Event.callFreeFunction =
        (searchLoop tacs n ds lt sols found).2.count Event.newRoundCall ∧
      (searchLoop tacs n ds lt sols found).2.count Event.callImplMethod =
        (searchLoop tacs n ds lt sols found).2.count Event.newRoundCall ∧
      (searchLoop tacs n ds lt sols found).2.count Event.callStructProjection =
        (searchLoop tacs n ds lt sols found).2.count Event.newRoundCall := by
  intro n
  induction n with
  | zero =>
    intro ds lt sols found
    simp [searchLoop]
  | succ n ih =>
    intro ds lt sols found
    cases found with
    | true =>
      rw [searchLoop_succ_true]
      refine ⟨?_, ?_, ?_, ?_, ?_, ?_, ?_⟩
      · show roundEvents.count Event.newRoundCall ≤ n + 1
        have h : roundEvents.count Event.newRoundCall = 1 := by decide
        omega
      · show roundEvents.count Event.callTrivial = 0
        decide
      · show roundEvents.count Event.callFamousTypes = 0
        decide
      · show roundEvents.count Event.callTypeConstructor = roundEvents.count Event.newRoundCall
        decide
      · show roundEvents.count Event.callFreeFunction = roundEvents.count Event.newRoundCall
        decide
      · show roundEvents.count Event.callImplMethod = roundEvents.count Event.newRoundCall
        decide
      · show roundEvents.count Event.callStructProjection = roundEvents.count Event.newRoundCall
        decide
    | false =>
      rw [searchLoop_succ_false]
      obtain ⟨k1, k2, k3, k4, k5, k6, k7⟩ := ih
        (ds.filter (fun d => !(decide (d ∈ (roundBody tacs ds lt).2.exhausted_scopedefs))))
        (roundBody tacs ds lt).2 (sols ++ (roundBody tacs ds lt).1)
        (!(sols ++ (roundBody tacs ds lt).1).isEmpty)
      have e1 : roundEvents.count Event.newRoundCall = 1 := by decide
      have e2 : roundEvents.count Event.callTrivial = 0 := by decide
      have e3 : roundEvents.count Event.callFamousTypes = 0 := by decide
      have e4 : roundEvents.count Event.callTypeConstructor = 1 := by decide
      have e5 : roundEvents.count Event.callFreeFunction = 1 := by decide
      have e6 : roundEvents.count Event.callImplMethod = 1 := by decide
      have e7 : roundEvents.count Event.callStructProjection = 1 := by decide
      refine ⟨?_, ?_, ?_, ?_, ?_, ?_, ?_⟩ <;>
        · simp only [List.count_append]
          omega

theorem term_searchTrace_counts (tacs : Tactics Ty α SD) (initialDefs : List SD) :
    ∃ evs : List Event,
      (term_searchTrace tacs initialDefs).2 =
        Event.callTrivial :: Event.callFamousTypes :: evs ∧
      evs.count Event.newRoundCall ≤ 5 ∧
      evs.count Event.callTrivial = 0 ∧
      evs.count Event.callFamousTypes = 0 ∧
      evs.count Event.callTypeConstructor = evs.count Event.newRoundCall ∧
      evs.count Event.callFreeFunction = evs.count Event.newRoundCall ∧
      evs.count Event.callImplMethod = evs.count Event.newRoundCall ∧
      evs.count Event.callStructProjection = evs.count Event.newRoundCall := by
  refine ⟨(searchLoop tacs 5 initialDefs
      (tacs.famous_types initialDefs (tacs.trivial initialDefs LookupTable.new).2).2
      ((tacs.trivial initialDefs LookupTable.new).1 ++
        (tacs.famous_types initialDefs (tacs.trivial initialDefs LookupTable.new).2).1)
      (!((tacs.trivial initialDefs LookupTable.new).1 ++
        (tacs.famous_types initialDefs (tacs.trivial initialDefs LookupTable.new).2).1).isEmpty)).2,
    rfl, ?_⟩
  exact searchLoop_trace_counts tacs 5 _ _ _ _

/-- C1: for every input, the traced driver invokes the two seed producers
(`trivial`, then `famous_types`) exactly once, runs at most 5 loop rounds
(each beginning with `new_round` and invoking the four remaining producers
exactly once per round), stops after the current round whenever
`solution_found` was already true on entering it, and hence runs exactly one
confirmation round past the first round whose accumulated solutions are
non-empty. -/
theorem C1_round_structure (tacs : Tactics Ty α SD) (initialDefs : List SD) :
    ((term_searchTrace tacs initialDefs).2.count Event.callTrivial = 1 ∧
     (term_searchTrace tacs initialDefs).2.count Event.callFamousTypes = 1) ∧
    (term_searchTrace tacs initialDefs).2.count Event.newRoundCall ≤ 5 ∧
    ((term_searchTrace tacs initialDefs).2.count Event.callTypeConstructor =
       (term_searchTrace tacs initialDefs).2.count Event.newRoundCall ∧
     (term_searchTrace tacs initialDefs).2.count Event.callFreeFunction =
       (term_searchTrace tacs initialDefs).2.count Event.newRoundCall ∧
     (term_searchTrace tacs initialDefs).2.count Event.callImplMethod =
       (term_searchTrace tacs initialDefs).2.count Event.newRoundCall ∧
     (term_searchTrace tacs initialDefs).2.count Event.callStructProjection =
       (term_searchTrace tacs initialDefs).2.count Event.newRoundCall) ∧
    (∀ (n : Nat) (ds : List SD) (lt : LookupTable Ty α SD) (sols : List (TypeTree α)),
      (searchLoop tacs (n + 1) ds lt sols true).2.count Event.newRoundCall = 1) ∧
    (∀ (n : Nat) (ds : List SD) (lt : LookupTable Ty α SD) (sols : List (TypeTree α)),
      sols ++ (roundBody tacs ds lt).1 ≠ [] →
      (searchLoop tacs (n + 1 + 1) ds lt sols false).2.count Event.newRoundCall = 2) := by
  obtain ⟨evs, hevs, k1, k2, k3, k4, k5, k6, k7⟩ := term_searchTrace_counts tacs initialDefs
  refine ⟨⟨?_, ?_⟩, ?_, ⟨?_, ?_, ?_, ?_⟩, ?_, ?_⟩
  · rw [hevs]
    simp [List.count_cons, k2]
  · rw [hevs]
    simp [List.count_cons, k3]
  · rw [hevs]
    simp only [List.count_cons]
    simp
    omega
  · rw [hevs]
    simp only [List.count_cons]
    simp
    omega
  · rw [hevs]
    simp only [List.count_cons]
    simp
    omega
  · rw [hevs]
    simp only [List.count_cons]
    simp
    omega
  · rw [hevs]
    simp only [List.count_cons]
    simp
    omega
  · intro n ds lt sols
    rw [searchLoop_succ_true]
    show roundEvents.count Event.newRoundCall = 1
    decide
  · intro n ds lt sols hne
    have hf1 : (sols ++ (roundBody tacs ds lt).1).isEmpty = false := by
      cases hE : sols ++ (roundBody tacs ds lt).1 with
      | nil => exact absurd hE hne
      | cons a l => rfl
    rw [searchLoop_succ_false]
    simp only [hf1, Bool.not_false, searchLoop_succ_true]
    show (roundEvents ++ roundEvents).count Event.newRoundCall = 2
    decide

/-- Witness for C1: with producers that always yield a candidate, a loop
entered with no solution finds one in its first round and runs exactly one
further confirmation round (2 `new_round` calls in total). -/
theorem C1_round_structure_witness :
    (searchLoop constTactics (0 + 1 + 1) ([] : List Nat) LookupTable.new []
        false).2.count Event.newRoundCall = 2 :=
  (C1_round_structure constTactics []).2.2.2.2 0 [] LookupTable.new [] (by decide)

end TermSearch
